import Mathlib

/-!
Shallow embedding of `tinybear/html/validate_html.py`.

Strings are modelled as `List Char` (Python strings indexed by code point);
`str.find(sub, start)` becomes `findFrom`, slices `s[a:b]` become `pySlice`.
Python's Unicode-aware `str.isdigit` / `str.isalnum` / `str.lower` /
`str.strip` are modelled for the ASCII range (`Char.isDigit`,
`Char.isAlphanum`, `Char.toLower`, `Char.isWhitespace`), which covers every
input the claims speak about.

The `while` loops of the source walk a cursor that strictly increases at
every iteration, so each loop is written with a fuel parameter; the wrappers
pass `length + 1` fuel, and because the cursor grows by at least one per
step, fuel can only run out once the cursor is already past the end of the
string, where the loop guard is false anyway — so the fueled functions agree
with the unbounded loops on every input.

`ParsingError` is raised by the source with a formatted message; here each
`raise` site becomes a constructor carrying exactly the data interpolated
into that message (tag name, position, snippet).  The two `raise` sites of
`_check_nested_tags` interpolate the same data (name, start position and the
40-character window) and differ only in fixed message words, so they share
the `unclosedTag` constructor.

The HTML node tree is built by the external collaborator (BeautifulSoup with
html5lib), which is not part of the repository; `validate_html` is therefore
parameterised by a `parse` function producing the tree, and the concrete
trees used in examples are modelled from the spec (the lenient parser wraps
bare content in an implicit `html`/`head`/`body` skeleton and lowercases tag
names).
-/

def chars (s : String) : List Char := s.data

/-- Python slice `l[a:b]` for natural `a ≤ b` (Python's `max(0, pos-20)` is
Nat subtraction here). -/
def pySlice (l : List Char) (a b : Nat) : List Char := (l.take b).drop a

/-- Whether `pat` is a prefix of `s` (scrutinises `pat` first, so that
`isPrefixOfL [] s` reduces even for an abstract `s`). -/
def isPrefixOfL : List Char → List Char → Bool
  | [], _ => true
  | a :: as, s =>
    match s with
    | [] => false
    | b :: bs => a == b && isPrefixOfL as bs

/-- Index of the first occurrence of `pat` in `s` (`none` when absent). -/
def subFind (s pat : List Char) : Option Nat :=
  match s with
  | [] => if pat.isEmpty then some 0 else none
  | _ :: tail => if isPrefixOfL pat s then some 0 else (subFind tail pat).map (· + 1)

/-- Python `s.find(pat, start)`: lowest index `≥ start` where `pat` occurs,
`none` for Python's `-1`. -/
def findFrom (s pat : List Char) (start : Nat) : Option Nat :=
  (subFind (s.drop start) pat).map (· + start)

/-- One constructor per `raise ParsingError(...)` site of the source, carrying
the data interpolated into the message. -/
inductive ParsingError where
  | unescapedAmpersand (snippet : List Char)
  | invalidEntity (entity : List Char) (snippet : List Char)
  | disallowedTag (name : String)
  | malformedList (parentName : String) (childName : String)
  | misplacedListItem (parentName : String)
  | emptyParagraph
  | rootLevelText
  | unclosedSpecial (pos : Nat) (snippet : List Char)
  | unclosedAngle (pos : Nat) (snippet : List Char)
  | unclosedTag (name : List Char) (pos : Nat) (snippet : List Char)
deriving DecidableEq

deriving instance DecidableEq for Except

/-- Python `entity.startswith("#") and entity[1:].isdigit()` (note
`"".isdigit()` is `False`). -/
def starts_hash_digits (e : List Char) : Bool :=
  match e with
  | '#' :: rest => !rest.isEmpty && rest.all Char.isDigit
  | _ => false

def entity_names : List (List Char) :=
  [chars "amp", chars "lt", chars "gt", chars "quot", chars "apos"]

/-- `_check_entity_with_ampersand`: validate the entity starting at the `&` at
`position`; return the position of the closing semicolon. -/
def check_entity_with_ampersand (html : List Char) (position : Nat) :
    Except ParsingError Nat :=
  match findFrom html (chars ";") (position + 1) with
  | none => .error (.unescapedAmpersand (pySlice html position (position + 50)))
  | some semicolon_pos =>
    let entity := pySlice html (position + 1) semicolon_pos
    if ¬ starts_hash_digits entity = true ∧ entity ∉ entity_names then
      .error (.invalidEntity entity (pySlice html position (position + 50)))
    else
      .ok semicolon_pos

/-- The `while` loop of `_check_for_unescaped_ampersand` (fueled; the cursor
strictly increases each iteration). -/
def ampGo (html : List Char) : Nat → Nat → Except ParsingError Unit
  | 0, _ => .ok ()
  | fuel + 1, position =>
    if h : position < html.length then
      if html[position] = '&' then
        match check_entity_with_ampersand html position with
        | .error e => .error e
        | .ok semicolon_pos => ampGo html fuel (semicolon_pos + 1)
      else
        ampGo html fuel (position + 1)
    else
      .ok ()

def check_for_unescaped_ampersand (html : List Char) : Except ParsingError Unit :=
  ampGo html (html.length + 1) 0

/-- Length of the maximal run of tag-name characters (Python
`while tag_end < len(html) and (html[tag_end].isalnum() or html[tag_end] in "-_")`). -/
def nameLen : List Char → Nat
  | [] => 0
  | c :: t => if c.isAlphanum || c = '-' || c = '_' then nameLen t + 1 else 0

/-- `_find_tag_end`: tag name (lowercased), end position, and whether the tag
is a closing tag. -/
def find_tag_end (html : List Char) (start_pos : Nat) : List Char × Nat × Bool :=
  if h : start_pos < html.length then
    if html[start_pos] ≠ '<' then ([], start_pos, false)
    else
      let is_closing : Bool :=
        if h2 : start_pos + 1 < html.length then decide (html[start_pos + 1] = '/')
        else false
      let tag_start := if is_closing then start_pos + 2 else start_pos + 1
      let tag_end := tag_start + nameLen (html.drop tag_start)
      ((pySlice html tag_start tag_end).map Char.toLower, tag_end, is_closing)
  else ([], start_pos, false)

def is_self_closing_tag (tag_name : List Char) : Bool :=
  decide (tag_name ∈ [chars "br", chars "img", chars "hr",
    chars "input", chars "meta", chars "link"])

def is_special_tag (tag_name : List Char) : Bool :=
  decide (tag_name ∈ [chars "!doctype", chars "!--"])

/-- The 40-character window `html[max(0, pos-20):pos+20]` used by the
unclosed-tag errors. -/
def window20 (html : List Char) (pos : Nat) : List Char :=
  pySlice html (pos - 20) (pos + 20)

/-- The nesting loop of `_check_nested_tags` (fueled; `pos` strictly increases
each iteration): counts occurrences of `<name` against `</name`, whichever
lies at the lower offset first, and returns the final nesting level. -/
def nestedLoop (html tag_name : List Char) : Nat → Nat → Nat → Nat
  | 0, _, level => level
  | fuel + 1, pos, level =>
    if pos < html.length ∧ level > 0 then
      match findFrom html ('<' :: tag_name) pos,
            findFrom html ('<' :: '/' :: tag_name) pos with
      | some next_open, none =>
        nestedLoop html tag_name fuel (next_open + 1) (level + 1)
      | some next_open, some next_close =>
        if next_open < next_close then
          nestedLoop html tag_name fuel (next_open + 1) (level + 1)
        else
          nestedLoop html tag_name fuel (next_close + 1) (level - 1)
      | none, some next_close =>
        nestedLoop html tag_name fuel (next_close + 1) (level - 1)
      | none, none => level
    else level

/-- `_check_nested_tags`: first the quick scan for the next `<name` and the
full closing string `</name>` (with its `>`), then the balanced-nesting loop
starting at depth 1. -/
def check_nested_tags (html tag_name : List Char) (start_pos : Nat) :
    Except ParsingError Unit :=
  match findFrom html ('<' :: tag_name) (start_pos + 1),
        findFrom html (('<' :: '/' :: tag_name) ++ chars ">") (start_pos + 1) with
  | none, none => .error (.unclosedTag tag_name start_pos (window20 html start_pos))
  | none, some _ => .ok ()
  | some next_open, some next_close =>
    if next_close < next_open then .ok ()
    else if nestedLoop html tag_name (html.length + 1) (start_pos + 1) 1 > 0 then
      .error (.unclosedTag tag_name start_pos (window20 html start_pos))
    else .ok ()
  | some _, none =>
    if nestedLoop html tag_name (html.length + 1) (start_pos + 1) 1 > 0 then
      .error (.unclosedTag tag_name start_pos (window20 html start_pos))
    else .ok ()

/-- The `while` loop of `_check_for_unclosed_tags` (fueled; the cursor
strictly increases each iteration). -/
def unclosedGo (html : List Char) : Nat → Nat → Except ParsingError Unit
  | 0, _ => .ok ()
  | fuel + 1, current_pos =>
    if h : current_pos < html.length then
      if html[current_pos] ≠ '<' then unclosedGo html fuel (current_pos + 1)
      else
        match find_tag_end html current_pos with
        | (tag_name, _, is_closing) =>
          if tag_name = [] then unclosedGo html fuel (current_pos + 1)
          else if is_special_tag tag_name then
            match findFrom html (chars ">") current_pos with
            | none => .error (.unclosedSpecial current_pos (window20 html current_pos))
            | some closing_angle_pos => unclosedGo html fuel (closing_angle_pos + 1)
          else
            match findFrom html (chars ">") current_pos with
            | none => .error (.unclosedAngle current_pos (window20 html current_pos))
            | some closing_angle_pos =>
              if !is_closing && !is_self_closing_tag tag_name then
                match check_nested_tags html tag_name current_pos with
                | .error e => .error e
                | .ok _ => unclosedGo html fuel (closing_angle_pos + 1)
              else unclosedGo html fuel (closing_angle_pos + 1)
    else .ok ()

def check_for_unclosed_tags (html : List Char) : Except ParsingError Unit :=
  unclosedGo html (html.length + 1) 0

/-- A node of the parsed tree: a tag with ordered children, or a text node. -/
inductive Node where
  | text (s : List Char)
  | tag (name : String) (children : List Node)

mutual
/-- Pre-order list of `(name, children)` of every tag node of a forest
(bs4 `soup.find_all(True)` document order). -/
def allTagsL : List Node → List (String × List Node)
  | [] => []
  | c :: cs => allTags1 c ++ allTagsL cs
def allTags1 : Node → List (String × List Node)
  | .text _ => []
  | .tag n cs => (n, cs) :: allTagsL cs
end

mutual
/-- Pre-order list of the parent names of every `li` node (the parent of a
root node is bs4's `[document]`). -/
def liParentsL (parent : String) : List Node → List String
  | [] => []
  | c :: cs => liParents1 parent c ++ liParentsL parent cs
def liParents1 (parent : String) : Node → List String
  | .text _ => []
  | .tag n cs => (if n = "li" then [parent] else []) ++ liParentsL n cs
end

mutual
/-- Pre-order list of all descendant text fragments of a forest. -/
def textFragmentsL : List Node → List (List Char)
  | [] => []
  | c :: cs => textFragments1 c ++ textFragmentsL cs
def textFragments1 : Node → List (List Char)
  | .text s => [s]
  | .tag _ cs => textFragmentsL cs
end

def nodeTagName? : Node → Option String
  | .tag n _ => some n
  | .text _ => none

/-- Python `str.strip()` (ASCII whitespace). -/
def pyStrip (l : List Char) : List Char :=
  ((l.dropWhile Char.isWhitespace).reverse.dropWhile Char.isWhitespace).reverse

/-- bs4 `get_text(strip=True)` of a node with children `cs`: the stripped text
fragments of the subtree, concatenated. -/
def get_text_strip (cs : List Node) : List Char :=
  ((textFragmentsL cs).map pyStrip).flatten

/-- The text-node children of a list of children. -/
def textChildren (cs : List Node) : List (List Char) :=
  cs.filterMap fun c => match c with | .text s => some s | .tag _ _ => none

def default_allowed_tags : List String :=
  ["a", "b", "body", "em", "head", "html", "i", "li", "ol", "p",
   "strong", "sub", "sup", "u", "ul"]

/-- `_check_all_tags_are_allowed`: every tag of the tree must be in
`allowed_tags`. -/
def check_all_tags_are_allowed (soup : List Node) (allowed_tags : List String) :
    Except ParsingError Unit :=
  match (allTagsL soup).find? (fun t => !allowed_tags.contains t.1) with
  | some t => .error (.disallowedTag t.1)
  | none => .ok ()

/-- `_check_list_structure`: (a) every tag child of a `ul`/`ol` is an `li`;
(b) every `li` has a `ul`/`ol` parent. -/
def check_list_structure (soup : List Node) : Except ParsingError Unit :=
  match ((allTagsL soup).filter (fun t => t.1 == "ul" || t.1 == "ol")).findSome?
      (fun t => ((t.2.filterMap nodeTagName?).find? (· != "li")).map
        (fun cn => ParsingError.malformedList t.1 cn)) with
  | some e => .error e
  | none =>
    match (liParentsL "[document]" soup).find? (fun pn => !(pn == "ul" || pn == "ol")) with
    | some pn => .error (.misplacedListItem pn)
    | none => .ok ()

/-- `_check_paragraphs`: no `p` node may have empty stripped text. -/
def check_paragraphs (soup : List Node) : Except ParsingError Unit :=
  match ((allTagsL soup).filter (fun t => t.1 == "p")).find?
      (fun t => get_text_strip t.2 == []) with
  | some _ => .error .emptyParagraph
  | none => .ok ()

/-- `_check_for_root_level_text`: no non-whitespace text node directly under
the `body` element (html5lib always creates one; were it absent the Python
code would not reach its loop at all). -/
def check_for_root_level_text (soup : List Node) : Except ParsingError Unit :=
  match (allTagsL soup).find? (fun t => t.1 == "body") with
  | some t =>
    if (textChildren t.2).any (fun s => !(pyStrip s).isEmpty) then
      .error .rootLevelText
    else .ok ()
  | none => .ok ()

/-- `validate_html`, parameterised by the external lenient parser that builds
the node tree from the raw string. -/
def validate_html (parse : List Char → List Node) (html : List Char)
    (allowed_tags : List String) (is_text_at_root_level_allowed : Bool) :
    Except ParsingError Unit :=
  if html = [] then .ok ()
  else do
    check_for_unescaped_ampersand html
    -- the source binds `soup = BeautifulSoup(html, "html5lib")` once and
    -- passes it to each check; `parse html` is written inline here
    check_all_tags_are_allowed (parse html) allowed_tags
    check_list_structure (parse html)
    check_paragraphs (parse html)
    if !is_text_at_root_level_allowed then check_for_root_level_text (parse html)
    check_for_unclosed_tags html

/-- First error of a list of check results (`.ok ()` when none fails). -/
def firstError : List (Except ParsingError Unit) → Except ParsingError Unit
  | [] => .ok ()
  | .error e :: _ => .error e
  | .ok _ :: rest => firstError rest

/-- Modelled from the spec: the external lenient parser (html5lib) wraps bare
content in an implicit `html`/`head`/`body` skeleton; the trees used in
concrete examples are the wrapped content. -/
def wrapBody (content : List Node) : List Node :=
  [Node.tag "html" [Node.tag "head" [], Node.tag "body" content]]

/-- The claim's wording of a valid entity body: one of the five literal names,
or `#` followed by one or more decimal digits. -/
def claim_valid_entity (e : List Char) : Prop :=
  e ∈ entity_names ∨ ∃ ds, ds ≠ [] ∧ (∀ c ∈ ds, c.isDigit) ∧ e = '#' :: ds

/-- The claim's wording of the ampersand-scan success condition: every `&`
begins a well-formed recognized entity. -/
def amp_scan_good (html : List Char) : Prop :=
  ∀ p, (h : p < html.length) → html[p] = '&' →
    ∃ s, findFrom html (chars ";") (p + 1) = some s ∧
      claim_valid_entity (pySlice html (p + 1) s)

/-- The claim's wording of the list rules: every tag child of a `ul`/`ol` is
an `li`, and every `li` sits directly under a `ul` or `ol`. -/
def lists_ok (soup : List Node) : Prop :=
  (∀ t ∈ allTagsL soup, t.1 = "ul" ∨ t.1 = "ol" →
    ∀ cn ∈ t.2.filterMap nodeTagName?, cn = "li") ∧
  (∀ pn ∈ liParentsL "[document]" soup, pn = "ul" ∨ pn = "ol")

/-- The `&` at `p` begins an entity the source accepts: a semicolon follows
and the text between passes the entity test of the code. -/
def amp_good_code (html : List Char) (p : Nat) : Prop :=
  ∃ s, findFrom html (chars ";") (p + 1) = some s ∧
    (starts_hash_digits (pySlice html (p + 1) s) = true ∨
      pySlice html (p + 1) s ∈ entity_names)

/-- Example input of the unclosed-tag claim. -/
def ex_unclosed_a : List Char := chars "<p>Unclosed <a href='#'>link</p>"

/-- Modelled from the spec: the html5lib tree for `<div>x` (content wrapped in
the implicit skeleton). -/
def div_tree : List Node := wrapBody [Node.tag "div" [Node.text (chars "x")]]

/-- Modelled from the spec: the html5lib tree for `<ul><li>a</li><p>b</p></ul>`. -/
def ul_p_tree : List Node :=
  wrapBody [Node.tag "ul" [Node.tag "li" [Node.text (chars "a")],
    Node.tag "p" [Node.text (chars "b")]]]

/-- Modelled from the spec: the html5lib tree for `<li>a</li>` at top level
(the `li` ends up a direct child of `body`). -/
def lone_li_tree : List Node := wrapBody [Node.tag "li" [Node.text (chars "a")]]

/-- Modelled from the spec: a `ul` with a stray text child before its `li`. -/
def ul_text_tree : List Node :=
  wrapBody [Node.tag "ul" [Node.text (chars "x"), Node.tag "li" [Node.text (chars "a")]]]

/-- Modelled from the spec: the html5lib tree for `<p></p>`. -/
def p_empty_tree : List Node := wrapBody [Node.tag "p" []]

/-- Modelled from the spec: the html5lib tree for `<p>   </p>`. -/
def p_blank_tree : List Node := wrapBody [Node.tag "p" [Node.text (chars "   ")]]

/-- Modelled from the spec: the html5lib tree for `<p>x</p>`. -/
def p_x_tree : List Node := wrapBody [Node.tag "p" [Node.text (chars "x")]]

/-- Modelled from the spec: the html5lib tree for bare root-level text. -/
def bare_text_tree : List Node := wrapBody [Node.text (chars "bare text")]

/-- The family of inputs of the case-sensitivity claim: a `P` element written
in uppercase around a middle part `m`. -/
def upperP (m : List Char) : List Char := chars "<P>" ++ m ++ chars "</P>"

/-- Modelled from the spec: the html5lib tree for `upperP m` (the parser
lowercases tag names and wraps in the implicit skeleton). -/
def upperP_tree (m : List Char) : List Node :=
  wrapBody [Node.tag "p" [Node.text m]]

/-! ### Properties of the string-search helpers -/

lemma isPrefixOfL_iff {pat s : List Char} : isPrefixOfL pat s = true ↔ pat <+: s := by
  induction pat generalizing s with
  | nil =>
    constructor
    · intro _; exact List.nil_prefix
    · intro _; rfl
  | cons a as ih =>
    cases s with
    | nil =>
      constructor
      · intro h
        rw [show isPrefixOfL (a :: as) [] = false from rfl] at h
        exact absurd h (by simp)
      · intro h
        exact absurd (List.prefix_nil.mp h) (by simp)
    | cons b bs =>
      rw [show isPrefixOfL (a :: as) (b :: bs) = (a == b && isPrefixOfL as bs) from rfl]
      rw [List.cons_prefix_cons, Bool.and_eq_true, beq_iff_eq, ih]

lemma subFind_some_spec {s pat : List Char} {j : Nat} (h : subFind s pat = some j) :
    pat <+: s.drop j ∧ ∀ k, k < j → ¬ pat <+: s.drop k := by
  induction s generalizing j with
  | nil =>
    unfold subFind at h
    split at h
    · rename_i hp
      obtain rfl : 0 = j := by simpa using h
      simp_all [List.isEmpty_iff]
    · simp at h
  | cons c tail ih =>
    unfold subFind at h
    split at h
    · rename_i hp
      obtain rfl : 0 = j := by simpa using h
      exact ⟨isPrefixOfL_iff.mp hp, by omega⟩
    · rename_i hp
      obtain ⟨j₀, hj₀, rfl⟩ := Option.map_eq_some'.mp h
      obtain ⟨h1, h2⟩ := ih hj₀
      refine ⟨by simpa using h1, ?_⟩
      intro k hk
      match k with
      | 0 =>
        simpa using fun hpre => hp (isPrefixOfL_iff.mpr hpre)
      | k' + 1 =>
        simpa using h2 k' (by omega)

lemma subFind_none_spec {s pat : List Char} (h : subFind s pat = none) :
    ∀ k, ¬ pat <+: s.drop k := by
  induction s with
  | nil =>
    unfold subFind at h
    split at h
    · simp at h
    · rename_i hp
      intro k hpre
      rw [List.drop_nil] at hpre
      rw [List.prefix_nil.mp hpre] at hp
      simp at hp
  | cons c tail ih =>
    unfold subFind at h
    split at h
    · simp at h
    · rename_i hp
      have htail := ih (by simpa using h)
      intro k
      match k with
      | 0 => simpa using fun hpre => hp (isPrefixOfL_iff.mpr hpre)
      | k' + 1 => simpa using htail k'

lemma subFind_of_prefix {s pat : List Char} {k : Nat} (h : pat <+: s.drop k) :
    ∃ j, subFind s pat = some j ∧ j ≤ k := by
  cases hsf : subFind s pat with
  | none => exact absurd h (subFind_none_spec hsf k)
  | some j =>
    refine ⟨j, rfl, ?_⟩
    by_contra hkj
    exact (subFind_some_spec hsf).2 k (by omega) h

lemma findFrom_some_spec {s pat : List Char} {start j : Nat}
    (h : findFrom s pat start = some j) :
    start ≤ j ∧ pat <+: s.drop j ∧ ∀ k, start ≤ k → k < j → ¬ pat <+: s.drop k := by
  unfold findFrom at h
  obtain ⟨j₀, hj₀, rfl⟩ := Option.map_eq_some'.mp h
  obtain ⟨h1, h2⟩ := subFind_some_spec hj₀
  rw [List.drop_drop] at h1
  refine ⟨by omega, by rwa [Nat.add_comm] at h1, ?_⟩
  intro k hk1 hk2 hpre
  have : pat <+: (s.drop start).drop (k - start) := by
    rw [List.drop_drop]
    rwa [show start + (k - start) = k from by omega]
  exact h2 (k - start) (by omega) this

lemma findFrom_none_spec {s pat : List Char} {start : Nat}
    (h : findFrom s pat start = none) :
    ∀ k, start ≤ k → ¬ pat <+: s.drop k := by
  unfold findFrom at h
  intro k hk hpre
  have : pat <+: (s.drop start).drop (k - start) := by
    rw [List.drop_drop]
    rwa [show start + (k - start) = k from by omega]
  exact subFind_none_spec (Option.map_eq_none'.mp h) (k - start) this

lemma findFrom_of_prefix {s pat : List Char} {start k : Nat} (hk : start ≤ k)
    (h : pat <+: s.drop k) : ∃ j, findFrom s pat start = some j ∧ j ≤ k := by
  cases hf : findFrom s pat start with
  | none => exact absurd h (findFrom_none_spec hf k hk)
  | some j =>
    refine ⟨j, rfl, ?_⟩
    by_contra hkj
    exact (findFrom_some_spec hf).2.2 k hk (by omega) h

lemma findFrom_mono {s pat₁ pat₂ : List Char} {start j : Nat} (hp : pat₁ <+: pat₂)
    (h : findFrom s pat₂ start = some j) :
    ∃ j', findFrom s pat₁ start = some j' ∧ j' ≤ j := by
  obtain ⟨h1, h2, _⟩ := findFrom_some_spec h
  exact findFrom_of_prefix h1 (hp.trans h2)

lemma prefix_drop_getElem {s pat : List Char} {k : Nat} (h : pat <+: s.drop k)
    {i : Nat} (hi : i < pat.length) :
    ∃ hb : k + i < s.length, s[k + i] = pat[i] := by
  have hlen : pat.length ≤ (s.drop k).length := h.length_le
  rw [List.length_drop] at hlen
  have hb : k + i < s.length := by omega
  refine ⟨hb, ?_⟩
  have := h.getElem hi
  rw [List.getElem_drop] at this
  exact this.symm

lemma nonempty_prefix_lt {s pat : List Char} {k : Nat} (h : pat <+: s.drop k)
    (hne : pat ≠ []) : k < s.length := by
  have hlen : pat.length ≤ (s.drop k).length := h.length_le
  rw [List.length_drop] at hlen
  have : 0 < pat.length := List.length_pos.mpr hne
  omega

lemma findFrom_char_spec {s : List Char} {c : Char} {start j : Nat}
    (h : findFrom s [c] start = some j) :
    ∃ hb : j < s.length, s[j] = c ∧ start ≤ j := by
  obtain ⟨h1, h2, _⟩ := findFrom_some_spec h
  obtain ⟨hb, hc⟩ := prefix_drop_getElem h2 (i := 0) (by simp)
  rw [Nat.add_zero] at hb
  refine ⟨hb, ?_, h1⟩
  simpa using hc

lemma findFrom_char_none {s : List Char} {c : Char} {start : Nat}
    (h : ∀ k, (hk : k < s.length) → start ≤ k → s[k] ≠ c) :
    findFrom s [c] start = none := by
  cases hf : findFrom s [c] start with
  | none => rfl
  | some j =>
    obtain ⟨hb, hc, hj⟩ := findFrom_char_spec hf
    exact absurd hc (h j hb hj)

lemma getElem_mem_pySlice {l : List Char} {a b p : Nat} (hp : p < l.length)
    (ha : a ≤ p) (hb : p < b) : l[p] ∈ pySlice l a b := by
  have h1 : p - a < ((l.take b).drop a).length := by
    simp only [List.length_drop, List.length_take]
    omega
  rw [pySlice, List.mem_iff_getElem]
  refine ⟨p - a, h1, ?_⟩
  rw [List.getElem_drop]
  simp only [show a + (p - a) = p from by omega]
  exact List.getElem_take _

/-! ### The ampersand scan -/

lemma chars_semi : chars ";" = [';'] := rfl

lemma claim_valid_iff_code (e : List Char) :
    claim_valid_entity e ↔ (starts_hash_digits e = true ∨ e ∈ entity_names) := by
  constructor
  · rintro (hmem | ⟨ds, hne, hdig, rfl⟩)
    · exact Or.inr hmem
    · left
      simp only [starts_hash_digits, Bool.and_eq_true, Bool.not_eq_true',
        List.isEmpty_iff, List.all_eq_true]
      exact ⟨by simpa using hne, hdig⟩
  · rintro (hsh | hmem)
    · right
      unfold starts_hash_digits at hsh
      split at hsh
      · rename_i rest
        simp only [Bool.and_eq_true, Bool.not_eq_true', List.isEmpty_iff,
          List.all_eq_true] at hsh
        exact ⟨rest, by simpa using hsh.1, hsh.2, rfl⟩
      · simp at hsh
    · exact Or.inl hmem

lemma no_amp_in_valid {e : List Char}
    (h : starts_hash_digits e = true ∨ e ∈ entity_names) : '&' ∉ e := by
  intro hmem
  rcases h with hsh | hn
  · unfold starts_hash_digits at hsh
    split at hsh
    · rename_i rest
      simp only [Bool.and_eq_true, List.all_eq_true] at hsh
      rcases List.mem_cons.mp hmem with h1 | h1
      · exact absurd h1 (by decide)
      · have := hsh.2 '&' h1
        exact absurd this (by decide)
    · simp at hsh
  · simp only [entity_names, List.mem_cons, List.not_mem_nil, or_false] at hn
    rcases hn with rfl | rfl | rfl | rfl | rfl <;> revert hmem <;> decide

lemma centity_ok_iff {html : List Char} {p s : Nat} :
    check_entity_with_ampersand html p = .ok s ↔
      (findFrom html (chars ";") (p + 1) = some s ∧
        (starts_hash_digits (pySlice html (p + 1) s) = true ∨
          pySlice html (p + 1) s ∈ entity_names)) := by
  unfold check_entity_with_ampersand
  cases hf : findFrom html (chars ";") (p + 1) with
  | none => simp
  | some s₀ =>
    simp only []
    split
    · rename_i hcond
      constructor
      · intro h; exact absurd h (by simp)
      · rintro ⟨h1, h2⟩
        obtain rfl : s₀ = s := by simpa using h1
        rcases h2 with h2 | h2
        · exact absurd h2 (by simpa using hcond.1)
        · exact absurd h2 hcond.2
    · rename_i hcond
      rw [Decidable.not_and_iff_or_not, Decidable.not_not] at hcond
      constructor
      · intro h
        obtain rfl : s₀ = s := by simpa using h
        refine ⟨rfl, ?_⟩
        rcases hcond with h2 | h2
        · exact Or.inl (by simpa using h2)
        · exact Or.inr (by simpa using h2)
      · rintro ⟨h1, _⟩
        obtain rfl : s₀ = s := by simpa using h1
        rfl

lemma centity_unescaped {html : List Char} {p : Nat}
    (h : findFrom html (chars ";") (p + 1) = none) :
    check_entity_with_ampersand html p =
      .error (.unescapedAmpersand (pySlice html p (p + 50))) := by
  unfold check_entity_with_ampersand
  rw [h]

lemma ampGo_ok_iff (html : List Char) :
    ∀ fuel pos, html.length < fuel + pos →
      (ampGo html fuel pos = .ok () ↔
        ∀ p, (hp : p < html.length) → pos ≤ p → html[p] = '&' → amp_good_code html p) := by
  intro fuel
  induction fuel with
  | zero =>
    intro pos hinv
    constructor
    · intro _ p hp hpos _
      omega
    · intro _; rfl
  | succ fuel ih =>
    intro pos hinv
    by_cases hpos : pos < html.length
    · simp only [ampGo]
      rw [dif_pos hpos]
      by_cases hamp : html[pos] = '&'
      · rw [if_pos hamp]
        cases hce : check_entity_with_ampersand html pos with
        | error e =>
          constructor
          · intro h; exact absurd h (by simp)
          · intro hR
            exfalso
            have hg := hR pos hpos le_rfl hamp
            unfold amp_good_code at hg
            obtain ⟨s, hfind, hv⟩ := hg
            have : check_entity_with_ampersand html pos = .ok s :=
              centity_ok_iff.mpr ⟨hfind, hv⟩
            rw [hce] at this
            exact absurd this (by simp)
        | ok s =>
          obtain ⟨hfind, hv⟩ := centity_ok_iff.mp hce
          have hfind' : findFrom html [';'] (pos + 1) = some s := by
            rwa [chars_semi] at hfind
          obtain ⟨hsb, hschar, hsge⟩ := findFrom_char_spec hfind'
          rw [ih (s + 1) (by omega)]
          constructor
          · intro hR p hp hpos2 hampp
            rcases Nat.lt_or_ge p (s + 1) with hlt | hge
            · rcases Nat.lt_trichotomy p pos with h1 | h1 | h1
              · omega
              · subst h1; exact ⟨s, hfind, hv⟩
              · rcases Nat.eq_or_lt_of_le (by omega : p ≤ s) with rfl | hps
                · exfalso
                  have : (';' : Char) = '&' := by rw [← hschar]; exact hampp
                  exact absurd this (by decide)
                · exfalso
                  have hmem : html[p] ∈ pySlice html (pos + 1) s :=
                    getElem_mem_pySlice hp (by omega) hps
                  rw [hampp] at hmem
                  exact no_amp_in_valid hv hmem
            · exact hR p hp hge hampp
          · intro hR p hp hpos2 hampp
            exact hR p hp (by omega) hampp
      · rw [if_neg hamp]
        rw [ih (pos + 1) (by omega)]
        constructor
        · intro hR p hp hpos2 hampp
          rcases Nat.eq_or_lt_of_le hpos2 with rfl | h
          · exact absurd hampp hamp
          · exact hR p hp (by omega) hampp
        · intro hR p hp hpos2 hampp
          exact hR p hp (by omega) hampp
    · constructor
      · intro _ p hp hpos2 _
        omega
      · intro _
        simp only [ampGo]
        rw [dif_neg hpos]

lemma ampGo_unescaped {html : List Char} {p : Nat} (hp : p < html.length)
    (hamp : html[p] = '&')
    (hnosemi : ∀ q, (hq : q < html.length) → p < q → html[q] ≠ ';') :
    ∀ fuel pos, html.length < fuel + pos → pos ≤ p →
      (∀ q, (hq : q < html.length) → pos ≤ q → q < p → html[q] = '&' →
        amp_good_code html q) →
      ampGo html fuel pos = .error (.unescapedAmpersand (pySlice html p (p + 50))) := by
  intro fuel
  induction fuel with
  | zero =>
    intro pos hinv hpos _
    omega
  | succ fuel ih =>
    intro pos hinv hpos hgood
    have hposlen : pos < html.length := by omega
    simp only [ampGo]
    rw [dif_pos hposlen]
    rcases Nat.eq_or_lt_of_le hpos with rfl | hlt
    · rw [if_pos hamp]
      have hfind : findFrom html (chars ";") (pos + 1) = none := by
        rw [chars_semi]
        exact findFrom_char_none (fun k hk hk2 => hnosemi k hk (by omega))
      rw [centity_unescaped hfind]
    · by_cases hampq : html[pos] = '&'
      · rw [if_pos hampq]
        have hg := hgood pos hposlen le_rfl hlt hampq
        unfold amp_good_code at hg
        obtain ⟨s, hfind, hv⟩ := hg
        rw [centity_ok_iff.mpr ⟨hfind, hv⟩]
        have hfind' : findFrom html [';'] (pos + 1) = some s := by
          rwa [chars_semi] at hfind
        obtain ⟨hsb, hschar, hsge⟩ := findFrom_char_spec hfind'
        have hsp : s < p := by
          rcases Nat.lt_trichotomy s p with h | h | h
          · exact h
          · exfalso
            subst h
            have : (';' : Char) = '&' := by rw [← hschar]; exact hamp
            exact absurd this (by decide)
          · exact absurd hschar (hnosemi s hsb h)
        exact ih (s + 1) (by omega) (by omega)
          (fun q hq h1 h2 h3 => hgood q hq (by omega) h2 h3)
      · rw [if_neg hampq]
        exact ih (pos + 1) (by omega) (by omega)
          (fun q hq h1 h2 h3 => hgood q hq (by omega) h2 h3)

/-! ### The validate pipeline -/

lemma validate_amp_error (parse : List Char → List Node) (html : List Char)
    (tags : List String) (root : Bool) (e : ParsingError)
    (h : check_for_unescaped_ampersand html = .error e) :
    validate_html parse html tags root = .error e := by
  have hne : html ≠ [] := by
    intro he
    rw [he] at h
    rw [show check_for_unescaped_ampersand [] = .ok () from by decide] at h
    exact absurd h (by simp)
  unfold validate_html
  rw [if_neg hne, h]
  rfl

lemma validate_eq_firstError (parse : List Char → List Node) (html : List Char)
    (tags : List String) (root : Bool) (hne : html ≠ []) :
    validate_html parse html tags root =
      firstError [check_for_unescaped_ampersand html,
        check_all_tags_are_allowed (parse html) tags,
        check_list_structure (parse html),
        check_paragraphs (parse html),
        if root then .ok () else check_for_root_level_text (parse html),
        check_for_unclosed_tags html] := by
  unfold validate_html
  rw [if_neg hne]
  cases h1 : check_for_unescaped_ampersand html with
  | error e => rfl
  | ok u =>
    cases u
    cases h2 : check_all_tags_are_allowed (parse html) tags with
    | error e => rfl
    | ok u =>
      cases u
      cases h3 : check_list_structure (parse html) with
      | error e => rfl
      | ok u =>
        cases u
        cases h4 : check_paragraphs (parse html) with
        | error e => rfl
        | ok u =>
          cases u
          cases root with
          | true =>
            cases h6 : check_for_unclosed_tags html with
            | error e => rfl
            | ok u => cases u; rfl
          | false =>
            cases h5 : check_for_root_level_text (parse html) with
            | error e => rfl
            | ok u =>
              cases u
              cases h6 : check_for_unclosed_tags html with
              | error e => rfl
              | ok u => cases u; rfl

/-- C4: the ampersand scan succeeds exactly when every `&` of the input begins
a well-formed recognized entity (one of `amp`, `lt`, `gt`, `quot`, `apos`, or
`#` followed by one or more decimal digits, closed by the next `;`); any other
content between `&` and `;` — such as `&foo;` — fails with `InvalidEntity`
carrying the 50-character snippet that starts at the `&`. -/
theorem c4_amp_scan_iff :
    (∀ html : List Char, check_for_unescaped_ampersand html = .ok () ↔
      amp_scan_good html) ∧
    check_for_unescaped_ampersand (chars "&foo;") =
      .error (.invalidEntity (chars "foo") (chars "&foo;")) := by
  constructor
  · intro html
    unfold check_for_unescaped_ampersand
    rw [ampGo_ok_iff html (html.length + 1) 0 (by omega)]
    unfold amp_scan_good amp_good_code
    constructor
    · intro h p hp hamp
      obtain ⟨s, h1, h2⟩ := h p hp (by omega) hamp
      exact ⟨s, h1, (claim_valid_iff_code _).mpr h2⟩
    · intro h p hp _ hamp
      obtain ⟨s, h1, h2⟩ := h p hp hamp
      exact ⟨s, h1, (claim_valid_iff_code _).mp h2⟩
  · decide

/-- C5 (amended): an `&` at position `p` with no `;` anywhere strictly after it
makes the scan fail with `UnescapedAmpersand` carrying the 50-character snippet
starting at `p`, provided every earlier `&` begins a valid entity (so that the
scan reaches `p`); in particular `validate("<p>AT&T</p>", default, false)`
yields `UnescapedAmpersand` referencing `&T</p>` for every parser. -/
theorem c5_unescaped_amp :
    (∀ html p, (hp : p < html.length) → html[p] = '&' →
      (∀ q, (hq : q < html.length) → p < q → html[q] ≠ ';') →
      (∀ q, (hq : q < html.length) → q < p → html[q] = '&' →
        ∃ s, findFrom html (chars ";") (q + 1) = some s ∧
          claim_valid_entity (pySlice html (q + 1) s)) →
      check_for_unescaped_ampersand html =
        .error (.unescapedAmpersand (pySlice html p (p + 50)))) ∧
    (∀ parse, validate_html parse (chars "<p>AT&T</p>") default_allowed_tags false =
      .error (.unescapedAmpersand (chars "&T</p>"))) := by
  constructor
  · intro html p hp hamp hnosemi hgood
    unfold check_for_unescaped_ampersand
    exact ampGo_unescaped hp hamp hnosemi (html.length + 1) 0 (by omega) (by omega)
      (fun q hq _ h2 h3 => by
        obtain ⟨s, h4, h5⟩ := hgood q hq h2 h3
        exact ⟨s, h4, (claim_valid_iff_code _).mp h5⟩)
  · intro parse
    exact validate_amp_error parse _ _ _ _ (by decide)

/-- C5 counterexample: in `&foo;&x` the `&` at position 5 has no `;` after it,
yet the scan reports `InvalidEntity` for the earlier `&foo;` (snippet from
position 0), not `UnescapedAmpersand` for position 5 — the claim as stated
fails. -/
theorem c5_counterexample :
    (chars "&foo;&x").get ⟨5, by decide⟩ = '&' ∧
    findFrom (chars "&foo;&x") (chars ";") 6 = none ∧
    check_for_unescaped_ampersand (chars "&foo;&x") =
      .error (.invalidEntity (chars "foo") (chars "&foo;&x")) := by
  exact ⟨by decide, by decide, by decide⟩

/-- Witness for C5 at a concrete input: the scan on `&x` fails with
`UnescapedAmpersand` and the snippet starting at the `&`. -/
theorem c5_witness :
    check_for_unescaped_ampersand (chars "&x") =
      .error (.unescapedAmpersand (chars "&x")) := by
  have h := c5_unescaped_amp.1 (chars "&x") 0 (by decide) (by decide)
    (by decide) (by intro q hq hlt hamp; exact absurd hlt (Nat.not_lt_zero q))
  exact h

/-- C2: `validate` is a strict linear pipeline in the fixed order ampersand
scan, tree construction, tag whitelist, list structure, paragraphs, root-level
text (when enabled), unclosed-tag scan; the first failing check determines the
single returned error, and in particular a string violating both the entity
rule and the unclosed-tag rule reports the ampersand/entity error. -/
theorem c2_pipeline :
    (∀ parse html tags root, html ≠ [] →
      validate_html parse html tags root =
        firstError [check_for_unescaped_ampersand html,
          check_all_tags_are_allowed (parse html) tags,
          check_list_structure (parse html),
          check_paragraphs (parse html),
          if root then .ok () else check_for_root_level_text (parse html),
          check_for_unclosed_tags html]) ∧
    (∀ parse html tags root e e', check_for_unescaped_ampersand html = .error e →
      check_for_unclosed_tags html = .error e' →
      validate_html parse html tags root = .error e) := by
  constructor
  · exact validate_eq_firstError
  · intro parse html tags root e e' h _
    exact validate_amp_error parse html tags root e h

/-- Witness for C2 at a concrete input: `&a<p` violates both the entity rule
and the unclosed-tag rule, and validate reports the ampersand error. -/
theorem c2_witness :
    validate_html (fun _ => []) (chars "&a<p") [] false =
      .error (.unescapedAmpersand (chars "&a<p")) :=
  c2_pipeline.2 (fun _ => []) (chars "&a<p") [] false
    (.unescapedAmpersand (chars "&a<p"))
    (.unclosedAngle 2 (chars "&a<p")) (by decide) (by decide)

/-- C3 (amended): `validate` fails fast on entity errors before the parser and
the tree checks, but the unclosed-tag (closure) scan runs last, after the four
tree checks, so an input containing both a closure defect and a tree-level
defect is reported with the tree-level error. -/
theorem c3_scan_order :
    (∀ parse html tags root e, check_for_unescaped_ampersand html = .error e →
      validate_html parse html tags root = .error e) ∧
    (∀ parse html tags root e, html ≠ [] →
      check_for_unescaped_ampersand html = .ok () →
      check_all_tags_are_allowed (parse html) tags = .error e →
      validate_html parse html tags root = .error e) := by
  constructor
  · exact validate_amp_error
  · intro parse html tags root e hne h1 h2
    rw [validate_eq_firstError parse html tags root hne, h1, h2]
    rfl

/-- C3 counterexample: `<div>x` contains both an unclosed tag (the scan fails
with `UnclosedTag div`) and a disallowed tag, yet validate reports the
disallowed-tag error — the closure error is not the one reported. -/
theorem c3_counterexample :
    validate_html (fun _ => div_tree) (chars "<div>x") default_allowed_tags false =
      .error (.disallowedTag "div") ∧
    check_for_unclosed_tags (chars "<div>x") =
      .error (.unclosedTag (chars "div") 0 (chars "<div>x")) := by
  exact ⟨by decide, by decide⟩

/-- Witness for C3 at a concrete input (the `<div>x` example). -/
theorem c3_witness :
    validate_html (fun _ => div_tree) (chars "<div>x") default_allowed_tags false =
      .error (.disallowedTag "div") :=
  c3_scan_order.2 (fun _ => div_tree) (chars "<div>x") default_allowed_tags false
    (.disallowedTag "div") (by decide) (by decide) (by decide)

/-- C9: validating the empty string returns Ok for every parser and every
configuration. -/
theorem c9_empty_ok :
    ∀ parse tags root, validate_html parse [] tags root = .ok () := by
  intro parse tags root
  rfl

/-! ### The unclosed-tag scan -/

lemma nestedLoop_level_zero (html tag_name : List Char) :
    ∀ fuel pos, nestedLoop html tag_name fuel pos 0 = 0 := by
  intro fuel pos
  cases fuel with
  | zero => rfl
  | succ fuel =>
    simp only [nestedLoop]
    rw [if_neg (by simp)]

lemma nestedLoop_quick_close {html tag_name : List Char} {start c : Nat}
    (hc : findFrom html (('<' :: '/' :: tag_name) ++ chars ">") (start + 1) = some c)
    (ho : ∀ o, findFrom html ('<' :: tag_name) (start + 1) = some o → c < o) :
    nestedLoop html tag_name (html.length + 1) (start + 1) 1 = 0 := by
  have hpre : ('<' :: '/' :: tag_name) <+: (('<' :: '/' :: tag_name) ++ chars ">") :=
    List.prefix_append _ _
  obtain ⟨c', hc', hcle⟩ := findFrom_mono hpre hc
  obtain ⟨hcs, hcpre, _⟩ := findFrom_some_spec hc'
  have hclen : c' < html.length := nonempty_prefix_lt hcpre (by simp)
  simp only [nestedLoop]
  rw [if_pos ⟨by omega, by omega⟩]
  cases hfo : findFrom html ('<' :: tag_name) (start + 1) with
  | none =>
    simp only [hc']
    exact nestedLoop_level_zero html tag_name _ _
  | some o =>
    have hco : c < o := ho o hfo
    simp only [hc']
    rw [if_neg (by omega : ¬ o < c')]
    exact nestedLoop_level_zero html tag_name _ _

lemma check_nested_err_of_loop :
    ∀ (html tag_name : List Char) (start : Nat),
      nestedLoop html tag_name (html.length + 1) (start + 1) 1 > 0 →
      check_nested_tags html tag_name start =
        .error (.unclosedTag tag_name start (window20 html start)) := by
  intro html tag_name start hloop
  unfold check_nested_tags
  split
  · rfl
  · rename_i c hfo hfc
    exfalso
    have := nestedLoop_quick_close hfc (fun o ho => by rw [hfo] at ho; cases ho)
    omega
  · rename_i o c hfo hfc
    by_cases hco : c < o
    · exfalso
      have := nestedLoop_quick_close hfc (fun o' ho' => by
        rw [hfo] at ho'
        injection ho' with h
        omega)
      omega
    · rw [if_neg hco, if_pos hloop]
  · rename_i o hfo hfc
    rw [if_pos hloop]

/-- C1 (amended): for an opening non-self-closing tag, whenever the balanced
count of `<name` against `</name` occurrences (lower offset first, starting at
depth 1 — the loop `nestedLoop`) never returns to 0, the scan fails with an
unclosed-tag error carrying the tag name, its start position and the
40-character window centered on it; the quick pre-check of the source may in
addition fail when only a partial `</name` without `>` occurs (see the
counterexample), so the balanced count alone gives this direction, not an
equivalence.  `<p>Unclosed <a href='#'>link</p>` fails with an unclosed-tag
error identifying `a` at start offset 12. -/
theorem c1_unclosed_balance :
    (∀ (html tag_name : List Char) (start : Nat),
      nestedLoop html tag_name (html.length + 1) (start + 1) 1 > 0 →
      check_nested_tags html tag_name start =
        .error (.unclosedTag tag_name start (window20 html start))) ∧
    check_for_unclosed_tags ex_unclosed_a =
      .error (.unclosedTag (chars "a") 12 ex_unclosed_a) := by
  constructor
  · exact check_nested_err_of_loop
  · decide

/-- Witness for C1 at a concrete input: on `<p>x` the balanced count stays at
depth 1, and the scan's nested-tag check fails with the unclosed-tag error for
`p` at position 0 with the 40-character window. -/
theorem c1_witness :
    check_nested_tags (chars "<p>x") (chars "p") 0 =
      .error (.unclosedTag (chars "p") 0 (window20 (chars "<p>x") 0)) :=
  c1_unclosed_balance.1 (chars "<p>x") (chars "p") 0 (by decide)

/-- C1 counterexample: on `<p>x</p` (no final `>`), the balanced-nesting count
of `<p` against `</p` described by the claim returns to depth 0 (the `</p` at
position 4 closes the count), yet the scan raises the unclosed-tag error for
`p` — because its quick pre-check searches for the full string `</p>`
including the terminating `>`.  So the scan is not the pure balanced-nesting
search the claim describes. -/
theorem c1_counterexample :
    check_nested_tags (chars "<p>x</p") (chars "p") 0 =
      .error (.unclosedTag (chars "p") 0 (chars "<p>x</p")) ∧
    nestedLoop (chars "<p>x</p") (chars "p") ((chars "<p>x</p").length + 1) 1 1 = 0 := by
  exact ⟨by decide, by decide⟩

/-! ### The tree checks -/

lemma pyStrip_eq_nil_iff (l : List Char) :
    pyStrip l = [] ↔ ∀ c ∈ l, c.isWhitespace := by
  unfold pyStrip
  rw [List.reverse_eq_nil_iff, List.dropWhile_eq_nil_iff]
  constructor
  · intro h c hc
    rw [← List.takeWhile_append_dropWhile Char.isWhitespace l] at hc
    rcases List.mem_append.mp hc with h1 | h1
    · exact List.mem_takeWhile_imp h1
    · exact h c (List.mem_reverse.mpr h1)
  · intro h c hc
    have h1 : c ∈ List.dropWhile Char.isWhitespace l := List.mem_reverse.mp hc
    have h2 : c ∈ l := by
      rw [← List.takeWhile_append_dropWhile Char.isWhitespace l]
      exact List.mem_append.mpr (Or.inr h1)
    exact h c h2

lemma get_text_strip_iff (cs : List Node) :
    get_text_strip cs = [] ↔ pyStrip (textFragmentsL cs).flatten = [] := by
  unfold get_text_strip
  rw [List.flatten_eq_nil_iff, pyStrip_eq_nil_iff]
  constructor
  · intro h c hc
    rw [List.mem_flatten] at hc
    obtain ⟨f, hf, hcf⟩ := hc
    have h2 := h (pyStrip f) (List.mem_map_of_mem _ hf)
    rw [pyStrip_eq_nil_iff] at h2
    exact h2 c hcf
  · intro h l hl
    rw [List.mem_map] at hl
    obtain ⟨f, hf, rfl⟩ := hl
    rw [pyStrip_eq_nil_iff]
    intro c hc
    exact h c (List.mem_flatten.mpr ⟨f, hf, hc⟩)

/-- C6: the list-structure check passes exactly when every tag child of a
`ul`/`ol` node is an `li` and every `li` node's direct parent is a `ul` or
`ol`; text children of a list are not flagged.  `<ul><li>a</li><p>b</p></ul>`
fails `MalformedList`, a lone `<li>a</li>` (whose parent is the implicit
`body`) fails `MisplacedListItem`, and a `ul` with a stray text child passes
this check. -/
theorem c6_list_structure :
    (∀ soup, check_list_structure soup = .ok () ↔ lists_ok soup) ∧
    check_list_structure ul_p_tree = .error (.malformedList "ul" "p") ∧
    check_list_structure lone_li_tree = .error (.misplacedListItem "body") ∧
    check_list_structure ul_text_tree = .ok () := by
  refine ⟨?_, by decide, by decide, by decide⟩
  intro soup
  constructor
  · intro h
    unfold check_list_structure at h
    split at h
    · exact absurd h (by simp)
    · rename_i heq
      split at h
      · exact absurd h (by simp)
      · rename_i heq2
        constructor
        · intro t ht hul cn hcn
          have hmem : t ∈ (allTagsL soup).filter (fun t => t.1 == "ul" || t.1 == "ol") :=
            List.mem_filter.mpr ⟨ht, by rcases hul with h1 | h1 <;> simp [h1]⟩
          have h3 := List.findSome?_eq_none_iff.mp heq t hmem
          rw [Option.map_eq_none'] at h3
          have h4 := List.find?_eq_none.mp h3 cn hcn
          simpa using h4
        · intro pn hpn
          have h3 := List.find?_eq_none.mp heq2 pn hpn
          have h4 : ¬pn = "ul" → pn = "ol" := by simpa using h3
          exact or_iff_not_imp_left.mpr h4
  · rintro ⟨h1, h2⟩
    have hF : ((allTagsL soup).filter (fun t => t.1 == "ul" || t.1 == "ol")).findSome?
        (fun t => ((t.2.filterMap nodeTagName?).find? (· != "li")).map
          (fun cn => ParsingError.malformedList t.1 cn)) = none := by
      rw [List.findSome?_eq_none_iff]
      intro t ht
      rw [Option.map_eq_none', List.find?_eq_none]
      intro cn hcn
      rw [List.mem_filter] at ht
      have hul : t.1 = "ul" ∨ t.1 = "ol" := by
        have := ht.2
        simp only [Bool.or_eq_true, beq_iff_eq] at this
        exact this
      have := h1 t ht.1 hul cn hcn
      simp [this]
    have hG : (liParentsL "[document]" soup).find?
        (fun pn => !(pn == "ul" || pn == "ol")) = none := by
      rw [List.find?_eq_none]
      intro pn hpn
      rcases h2 pn hpn with h3 | h3 <;> simp [h3]
    unfold check_list_structure
    rw [hF, hG]

/-- C7: the paragraph check fails with `EmptyParagraph` exactly when some `p`
node's trimmed text content (the whitespace-stripped concatenation of all its
descendant text) is empty; `<p></p>` and `<p>   </p>` fail, `<p>x</p>`
passes. -/
theorem c7_paragraphs :
    (∀ soup, check_paragraphs soup = .error .emptyParagraph ↔
      ∃ t ∈ allTagsL soup, t.1 = "p" ∧ pyStrip (textFragmentsL t.2).flatten = []) ∧
    check_paragraphs p_empty_tree = .error .emptyParagraph ∧
    check_paragraphs p_blank_tree = .error .emptyParagraph ∧
    check_paragraphs p_x_tree = .ok () := by
  refine ⟨?_, by decide, by decide, by decide⟩
  intro soup
  constructor
  · intro h
    unfold check_paragraphs at h
    split at h
    · rename_i t heq
      have hmem := List.mem_of_find?_eq_some heq
      have hpred := List.find?_some heq
      rw [List.mem_filter] at hmem
      refine ⟨t, hmem.1, by simpa using hmem.2, ?_⟩
      rw [← get_text_strip_iff]
      simpa using hpred
    · exact absurd h (by simp)
  · rintro ⟨t, ht, hname, hempty⟩
    unfold check_paragraphs
    cases hf : ((allTagsL soup).filter (fun t => t.1 == "p")).find?
        (fun t => get_text_strip t.2 == []) with
    | some t' => rfl
    | none =>
      exfalso
      have hmem : t ∈ (allTagsL soup).filter (fun t => t.1 == "p") :=
        List.mem_filter.mpr ⟨ht, by simp [hname]⟩
      have := List.find?_eq_none.mp hf t hmem
      rw [← get_text_strip_iff] at hempty
      simp [hempty] at this

/-- C8: the root-level-text check inspects the direct children of the first
`body` element of the tree (the implicit container the lenient parser
creates), failing `RootLevelText` exactly when one of them is a text node
that is non-empty after stripping; `"bare text"` fails it when root-level
text is disallowed and passes when it is allowed (in which case the check is
not invoked by `validate_html` at all). -/
theorem c8_root_text :
    (∀ soup, check_for_root_level_text soup = .error .rootLevelText ↔
      ∃ t, (allTagsL soup).find? (fun x => x.1 == "body") = some t ∧
        ∃ s ∈ textChildren t.2, pyStrip s ≠ []) ∧
    validate_html (fun _ => bare_text_tree) (chars "bare text")
      default_allowed_tags false = .error .rootLevelText ∧
    validate_html (fun _ => bare_text_tree) (chars "bare text")
      default_allowed_tags true = .ok () := by
  refine ⟨?_, by decide, by decide⟩
  intro soup
  unfold check_for_root_level_text
  cases hf : (allTagsL soup).find? (fun t => t.1 == "body") with
  | none =>
    constructor
    · intro h
      exact absurd h (by simp)
    · rintro ⟨t, ht, _⟩
      cases ht
  | some t =>
    by_cases hany : (textChildren t.2).any (fun s => !(pyStrip s).isEmpty)
    · constructor
      · intro _
        refine ⟨t, rfl, ?_⟩
        rw [List.any_eq_true] at hany
        obtain ⟨s, hs, hstrip⟩ := hany
        refine ⟨s, hs, ?_⟩
        simpa [List.isEmpty_iff] using hstrip
      · intro _
        simp [hany]
    · constructor
      · intro h
        exfalso
        simp only [Bool.not_eq_true] at hany
        simp [hany] at h
      · rintro ⟨t', ht', s, hs, hstrip⟩
        obtain rfl : t = t' := by simpa using ht'
        exact absurd
          (List.any_eq_true.mpr ⟨s, hs, by simpa [List.isEmpty_iff] using hstrip⟩) hany

/-! ### Case sensitivity of the closure search -/

lemma subFind_append_none {m suf pat ptail : List Char}
    (hpat : pat = '<' :: ptail) (hm : '<' ∉ m) (hsuf : subFind suf pat = none) :
    subFind (m ++ suf) pat = none := by
  induction m with
  | nil => simpa using hsuf
  | cons c m' ih =>
    have hc : c ≠ '<' := fun h => hm (h ▸ List.mem_cons_self c m')
    have hm' : '<' ∉ m' := fun h => hm (List.mem_cons_of_mem c h)
    rw [List.cons_append]
    have hpre : isPrefixOfL pat (c :: (m' ++ suf)) = false := by
      subst hpat
      rw [show isPrefixOfL ('<' :: ptail) (c :: (m' ++ suf)) =
        ('<' == c && isPrefixOfL ptail (m' ++ suf)) from rfl]
      rw [beq_eq_false_iff_ne.mpr (Ne.symm hc)]
      rw [Bool.false_and]
    rw [show subFind (c :: (m' ++ suf)) pat =
      (if isPrefixOfL pat (c :: (m' ++ suf)) then some 0
       else (subFind (m' ++ suf) pat).map (· + 1)) from rfl]
    rw [hpre]
    rw [if_neg (by simp)]
    rw [ih hm']
    rfl

lemma findFrom_upperP_open_none {m : List Char} (hm : '<' ∉ m) :
    findFrom (upperP m) ('<' :: chars "p") (0 + 1) = none := by
  have h1 : (upperP m).drop (0 + 1) = ('P' :: '>' :: m) ++ ['<', '/', 'P', '>'] := by
    rw [show (upperP m).drop (0 + 1) = 'P' :: '>' :: (m ++ ['<', '/', 'P', '>']) from rfl]
    simp
  have h2 : subFind (('P' :: '>' :: m) ++ ['<', '/', 'P', '>']) ('<' :: chars "p") = none := by
    refine @subFind_append_none ('P' :: '>' :: m) ['<', '/', 'P', '>']
      ('<' :: chars "p") (chars "p") rfl ?_ (by decide)
    intro h
    rcases List.mem_cons.mp h with h | h
    · exact absurd h (by decide)
    rcases List.mem_cons.mp h with h | h
    · exact absurd h (by decide)
    exact hm h
  unfold findFrom
  rw [h1, h2]
  rfl

lemma findFrom_upperP_close_none {m : List Char} (hm : '<' ∉ m) :
    findFrom (upperP m) (('<' :: '/' :: chars "p") ++ chars ">") (0 + 1) = none := by
  have h1 : (upperP m).drop (0 + 1) = ('P' :: '>' :: m) ++ ['<', '/', 'P', '>'] := by
    rw [show (upperP m).drop (0 + 1) = 'P' :: '>' :: (m ++ ['<', '/', 'P', '>']) from rfl]
    simp
  have h2 : subFind (('P' :: '>' :: m) ++ ['<', '/', 'P', '>'])
      (('<' :: '/' :: chars "p") ++ chars ">") = none := by
    refine @subFind_append_none ('P' :: '>' :: m) ['<', '/', 'P', '>']
      (('<' :: '/' :: chars "p") ++ chars ">") (('/' :: chars "p") ++ chars ">")
      rfl ?_ (by decide)
    intro h
    rcases List.mem_cons.mp h with h | h
    · exact absurd h (by decide)
    rcases List.mem_cons.mp h with h | h
    · exact absurd h (by decide)
    exact hm h
  unfold findFrom
  rw [h1, h2]
  rfl

lemma upperP_no_amp {m : List Char} (hm : '&' ∉ m) : '&' ∉ upperP m := by
  intro h
  rw [show upperP m = '<' :: 'P' :: '>' :: (m ++ ['<', '/', 'P', '>']) from rfl] at h
  rcases List.mem_cons.mp h with h | h
  · exact absurd h (by decide)
  rcases List.mem_cons.mp h with h | h
  · exact absurd h (by decide)
  rcases List.mem_cons.mp h with h | h
  · exact absurd h (by decide)
  rcases List.mem_append.mp h with h | h
  · exact hm h
  · exact absurd h (by decide)

/-- C10 (amended): the scan lowercases the tag name read after `<` and then
searches for the lowercased sequences `<name` and `</name` in the original,
unlowered string; consequently, for every middle part `m` with no `<` or `&`
and non-whitespace content (so that no earlier check of the pipeline fires
first), validating `<P>m</P>` (with `p` allowed, against the tree the parser
builds for it) raises the unclosed-tag error for `p` at position 0 even
though the element is properly closed.  The content restriction on `m` is
needed: the claim is not true of every input containing an uppercase-written
closed element (see the counterexample, where an earlier pipeline check
reports a different error first). -/
theorem c10_upper_case :
    ∀ m : List Char, '<' ∉ m → '&' ∉ m → pyStrip m ≠ [] →
      validate_html (fun _ => upperP_tree m) (upperP m) default_allowed_tags false =
        .error (.unclosedTag (chars "p") 0 (window20 (upperP m) 0)) := by
  intro m hm hamp hstrip
  have hampok : check_for_unescaped_ampersand (upperP m) = .ok () := by
    unfold check_for_unescaped_ampersand
    rw [ampGo_ok_iff (upperP m) ((upperP m).length + 1) 0 (by omega)]
    intro p hp _ hc
    exact absurd (hc ▸ List.getElem_mem hp) (upperP_no_amp hamp)
  have htags : check_all_tags_are_allowed (upperP_tree m) default_allowed_tags = .ok () := rfl
  have hlist : check_list_structure (upperP_tree m) = .ok () := rfl
  have hroot : check_for_root_level_text (upperP_tree m) = .ok () := rfl
  have hpara : check_paragraphs (upperP_tree m) = .ok () := by
    unfold check_paragraphs
    rw [show ((allTagsL (upperP_tree m)).filter (fun t => t.1 == "p")) =
      [("p", [Node.text m])] from rfl]
    have hgts : get_text_strip [Node.text m] = pyStrip m := by
      simp [get_text_strip, textFragmentsL, textFragments1]
    have hpred : ¬ ((get_text_strip ([Node.text m]) == ([] : List Char)) = true) := by
      rw [hgts]
      simpa [beq_iff_eq] using hstrip
    rw [@List.find?_cons_of_neg (String × List Node)
      (fun t => get_text_strip t.2 == []) ("p", [Node.text m]) [] hpred]
    rfl
  have hnested : check_nested_tags (upperP m) (chars "p") 0 =
      .error (.unclosedTag (chars "p") 0 (window20 (upperP m) 0)) := by
    unfold check_nested_tags
    rw [findFrom_upperP_open_none hm, findFrom_upperP_close_none hm]
  have hscan : check_for_unclosed_tags (upperP m) =
      .error (.unclosedTag (chars "p") 0 (window20 (upperP m) 0)) := by
    rw [show check_for_unclosed_tags (upperP m) =
        (match check_nested_tags (upperP m) (chars "p") 0 with
         | .error e => (.error e : Except ParsingError Unit)
         | .ok _ => unclosedGo (upperP m) ((upperP m).length) 3) from rfl]
    rw [hnested]
  have hne : upperP m ≠ [] := by
    rw [show upperP m = '<' :: 'P' :: '>' :: (m ++ ['<', '/', 'P', '>']) from rfl]
    exact List.cons_ne_nil _ _
  rw [validate_eq_firstError (fun _ => upperP_tree m) (upperP m) default_allowed_tags false hne]
  rw [hampok, htags, hlist, hpara, hroot, hscan]
  rfl

/-- Witness for C10 at a concrete input: `<P>x</P>` with the default whitelist
raises the unclosed-tag error for the lowercased name `p` at position 0. -/
theorem c10_witness :
    validate_html (fun _ => upperP_tree (chars "x")) (upperP (chars "x"))
      default_allowed_tags false =
      .error (.unclosedTag (chars "p") 0 (window20 (upperP (chars "x")) 0)) :=
  c10_upper_case (chars "x") (by decide) (by decide) (by decide)

/-- C10 counterexample: `<P>   </P>` contains a non-self-closing element whose
opening and closing tags are written with an uppercase letter and is properly
closed, yet `validate_html` does not raise an unclosed-tag error for it: the
paragraph check runs before the unclosed-tag scan and reports
`EmptyParagraph` (the element's stripped text is empty).  So the claim, read
over every input containing such an element, is false. -/
theorem c10_counterexample :
    validate_html (fun _ => upperP_tree (chars "   ")) (upperP (chars "   "))
      default_allowed_tags false = .error .emptyParagraph := by
  decide
